import Mathlib

/-!
Shallow embedding of the NeaSPEC spectral file readers
(`orangecontrib/spectroscopy/io/neaspec.py`): the legacy tab-separated
reader (`NeaReader.read_v1`), the modern commented-table reader
(`NeaReader.read_v2`), the GSF binary raster combiner (`NeaReaderGSF`)
and the multichannel TXT reader (`NeaReaderMultiChannelTXT`).

Numeric samples are modelled as rationals.  The NaN "missing" sentinel of
the Python code is modelled by `Option` (or a default that no theorem
reads) where a claim depends on presence; fallible code is modelled with
`Except`/an explicit outcome type.
-/

namespace NeaSpec

/-- Minimum of a sample vector (`np.min`); the empty case raises in numpy
and the default is never relied upon. -/
def vecMin : List ℚ → ℚ
  | [] => 0
  | x :: xs => xs.foldl min x

/-- Maximum of a sample vector (`np.max`). -/
def vecMax : List ℚ → ℚ
  | [] => 0
  | x :: xs => xs.foldl max x

/-- `np.linspace a b n` (endpoint included): `n` evenly spaced points from
`a` to `b`. -/
def linspace (a b : ℚ) (n : ℕ) : List ℚ :=
  if n ≤ 1 then (List.range n).map (fun _ => a)
  else (List.range n).map (fun i : ℕ => a + (b - a) * (i : ℚ) / ((n : ℚ) - 1))

/-- The slice `l[i : i+n]`. -/
def sliceTake (l : List ℚ) (i n : ℕ) : List ℚ := (l.drop i).take n

/-- A sequence of numpy row assignments `M[idx, :] = row`, in order. -/
def setAll (M : List (List ℚ)) (us : List (ℕ × List ℚ)) : List (List ℚ) :=
  us.foldl (fun acc u => acc.set u.1 u.2) M

/-! ## Legacy reader (`NeaReader.read_v1`) -/

/-- Channel classification result of `read_v1.channel_type`. -/
inductive ChanType
  | OA
  | OP
  | M
deriving DecidableEq

/-- `channel_type`: `startswith(b"O") and endswith(b"A")` is amplitude,
`…endswith(b"P")` is phase, everything else is reference (`M`). -/
def channelType (s : String) : ChanType :=
  let cs := s.toList
  if cs.head? = some 'O' ∧ cs.getLast? = some 'A' then .OA
  else if cs.head? = some 'O' ∧ cs.getLast? = some 'P' then .OP
  else .M

/-- Whether a channel label classifies as reference. -/
def isM (s : String) : Bool := channelType s == .M

/-- One parsed data line of a legacy file: the four leading metadata
columns plus the numeric sample columns. -/
structure NeaRecord where
  row : ℕ
  col : ℕ
  run : ℕ
  chan : String
  samples : List ℚ
deriving DecidableEq

/-- Python `int` on a digit string; `none` on empty or non-digit input
(where `int` raises `ValueError`). -/
def digitsToNat? (cs : List Char) : Option ℕ :=
  if cs.isEmpty then none
  else cs.foldl (fun acc c =>
    acc.bind (fun n => if c.isDigit then some (n * 10 + (c.toNat - 48)) else none))
    (some 0)

/-- The harmonic index `int(label[1:-1])` of an `O<digits>A` / `O<digits>P`
channel label. -/
def harmonic? (s : String) : Option ℕ := digitsToNat? ((s.toList.drop 1).dropLast)

/-- `numharmonics = maxn + 1` where `maxn` is the largest harmonic index
among amplitude/phase labels (the code maximizes over `np.unique`, which
equals maximizing over all records; `maxn = -1`, hence `0`, when there are
none). -/
def numharmonics (recs : List NeaRecord) : ℕ :=
  recs.foldl (fun acc r =>
    match channelType r.chan with
    | .OA | .OP =>
      match harmonic? r.chan with
      | some h => max acc (h + 1)
      | none => acc
    | .M => acc) 0

/-- Sample vectors of the reference (`M`) records, in file order. -/
def mVecs (recs : List NeaRecord) : List (List ℚ) :=
  (recs.filter (fun r => isM r.chan)).map (·.samples)

/-- One step of the running `[min_intp, max_intp]` envelope update of
`read_v1` (executed for every `M` record, any pixel). -/
def envStep (st : Option (ℚ × ℚ)) (r : NeaRecord) : Option (ℚ × ℚ) :=
  if isM r.chan then
    if r.samples.isEmpty then st
    else
      match st with
      | none => some (vecMin r.samples, vecMax r.samples)
      | some p => some (max p.1 (vecMin r.samples), min p.2 (vecMax r.samples))
  else st

/-- The accumulated `(min_intp, max_intp)` pair; `none` when no `M` record
was seen. -/
def v1Envelope (recs : List NeaRecord) : Option (ℚ × ℚ) :=
  recs.foldl envStep none

/-- `len(np.unique(meta["run"]))`. -/
def nruns (recs : List NeaRecord) : ℕ := ((recs.map (·.run)).dedup).length

/-- `set(map(tuple, rowcols))`: the distinct `(row, column)` pixels.
Python set iteration order is unspecified; a fixed dedup order is used
here and no claim depends on the relative order of pixels. -/
def uniquePixels (recs : List NeaRecord) : List (ℕ × ℕ) :=
  (recs.map (fun r => (r.row, r.col))).dedup

/-- The reference vector stored at `di[(r,c)]["M"][run]`: repeated
assignment means the last matching record wins; `none` when the NaN
prefill was never overwritten. -/
def v1M (recs : List NeaRecord) (r c run : ℕ) : Option (List ℚ) :=
  ((recs.filter (fun t =>
    t.row == r && t.col == c && t.run == run && isM t.chan)).getLast?).map (·.samples)

/-- The amplitude vector stored at `di[(r,c)]["OA"][h, run]`. -/
def v1OA (recs : List NeaRecord) (r c h run : ℕ) : Option (List ℚ) :=
  ((recs.filter (fun t =>
    t.row == r && t.col == c && t.run == run && (channelType t.chan == .OA)
      && (harmonic? t.chan == some h))).getLast?).map (·.samples)

/-- The phase vector stored at `di[(r,c)]["OP"][h, run]`. -/
def v1OP (recs : List NeaRecord) (r c h run : ℕ) : Option (List ℚ) :=
  ((recs.filter (fun t =>
    t.row == r && t.col == c && t.run == run && (channelType t.chan == .OP)
      && (harmonic? t.chan == some h))).getLast?).map (·.samples)

/-- Piecewise-linear interpolation (`scipy.interpolate.interp1d`).
Evaluation outside the domain raises in the Python code (treated in the
domain analysis); no theorem depends on the numeric values computed
here. -/
def interpPairs : List (ℚ × ℚ) → ℚ → ℚ
  | [], _ => 0
  | [p], _ => p.2
  | p :: q :: rest, x =>
    if x ≤ q.1 then p.2 + (q.2 - p.2) * (x - p.1) / (q.1 - p.1)
    else interpPairs (q :: rest) x

/-- `interp1d(xs, ys)(x)`. -/
def interpAt (xs ys : List ℚ) (x : ℚ) : ℚ := interpPairs (xs.zip ys) x

/-- The common axis `X = np.linspace(min_intp, max_intp, len(datacols))`
(`datacols = range(4, ncols)`); without any `M` record the Python call
receives `None` bounds and raises. -/
def v1Axis (recs : List NeaRecord) (ncols : ℕ) : List ℚ :=
  match v1Envelope recs with
  | none => []
  | some p => linspace p.1 p.2 (ncols - 4)

/-- The label `"O%dA" % i`. -/
def oA (i : ℕ) : String := "O" ++ toString i ++ "A"

/-- The label `"O%dP" % i`. -/
def oP (i : ℕ) : String := "O" ++ toString i ++ "P"

/-- Per-pixel metadata rows of `read_v1`: the list comprehension
`[[row, col, "O%dA" % i] for i in range(numharmonics)]` followed by the
corresponding `"O%dP"` comprehension. -/
def v1PixelMetas (r c nh : ℕ) : List (ℕ × ℕ × String) :=
  ((List.range nh).map (fun i => (r, c, oA i)))
    ++ ((List.range nh).map (fun i => (r, c, oP i)))

/-- All metadata rows of `read_v1`, pixel blocks concatenated. -/
def v1Metas (recs : List NeaRecord) : List (ℕ × ℕ × String) :=
  (uniquePixels recs).flatMap (fun p => v1PixelMetas p.1 p.2 (numharmonics recs))

/-- Pointwise mean over runs of the per-run interpolations
(`np.mean(..., axis=1)` applied to the interpolated array). -/
def v1MeanAt (recs : List NeaRecord) (r c : ℕ) (ys : ℕ → Option (List ℚ))
    (x : ℚ) : ℚ :=
  (((List.range (nruns recs)).map (fun run =>
    interpAt ((v1M recs r c run).getD []) ((ys run).getD []) x)).sum)
    / (nruns recs : ℚ)

/-- Per-pixel data rows of `read_v1`: `OAmean` (one row per harmonic) then
`OPmean` (one row per harmonic), each evaluated on the common axis. -/
def v1PixelDataRows (recs : List NeaRecord) (r c : ℕ) (X : List ℚ) :
    List (List ℚ) :=
  ((List.range (numharmonics recs)).map (fun h =>
      X.map (v1MeanAt recs r c (v1OA recs r c h))))
    ++ ((List.range (numharmonics recs)).map (fun h =>
      X.map (v1MeanAt recs r c (v1OP recs r c h))))

/-- All data rows of `read_v1` (`np.vstack(final_data)`). -/
def v1DataRows (recs : List NeaRecord) (X : List ℚ) : List (List ℚ) :=
  (uniquePixels recs).flatMap (fun p => v1PixelDataRows recs p.1 p.2 X)

/-- `read_v1` assembled: common axis, data matrix and metadata rows. -/
def readV1 (recs : List NeaRecord) (ncols : ℕ) :
    Except String (List ℚ × List (List ℚ) × List (ℕ × ℕ × String)) :=
  match v1Envelope recs with
  | none => .error "TypeError: linspace received None bounds (no M record)"
  | some _ =>
    .ok (v1Axis recs ncols, v1DataRows recs (v1Axis recs ncols), v1Metas recs)

/-- Modelled from the spec claim's words (claim C1): amplitude and phase
rows interleaved per harmonic (`O0A, O0P, O1A, O1P, …`); to be compared
with `v1PixelMetas`. -/
def specInterleavedPixelMetas (r c nh : ℕ) : List (ℕ × ℕ × String) :=
  (List.range nh).flatMap (fun i => [(r, c, oA i), (r, c, oP i)])

/-- The interleaved ordering of claim C1 lifted to the whole file. -/
def specInterleavedMetas (recs : List NeaRecord) : List (ℕ × ℕ × String) :=
  (uniquePixels recs).flatMap
    (fun p => specInterleavedPixelMetas p.1 p.2 (numharmonics recs))

/-- The claim's "maximum over all observed reference vectors of that
vector's minimum" (claim C2's wording, for comparison with the code's
accumulated envelope). -/
def maxOfMins (recs : List NeaRecord) : ℚ := vecMax ((mVecs recs).map vecMin)

/-- The claim's "minimum over all observed reference vectors of that
vector's maximum". -/
def minOfMaxes (recs : List NeaRecord) : ℚ := vecMin ((mVecs recs).map vecMax)

/-! ## Modern reader (`NeaReader.read_v2`) -/

/-- `int(file[:, k].max() + 1)`; index values are non-negative integers in
well-formed files, where `int` truncation and `Int.floor` agree. -/
def v2ColMaxPlus1 (file : List (List ℚ)) (k : ℕ) : ℕ :=
  (⌊vecMax (file.map (fun r => r.getD k 0))⌋ + 1).toNat

/-- `Max_row`. -/
def v2MaxRow (file : List (List ℚ)) : ℕ := v2ColMaxPlus1 file 0

/-- `Max_col`. -/
def v2MaxCol (file : List (List ℚ)) : ℕ := v2ColMaxPlus1 file 1

/-- `Max_omega`. -/
def v2MaxOmega (file : List (List ℚ)) : ℕ := v2ColMaxPlus1 file 2

/-- The `j`-th pixel block `file[j*Max_omega : (j+1)*Max_omega]`. -/
def v2Block (file : List (List ℚ)) (j : ℕ) : List (List ℚ) :=
  (file.drop (j * v2MaxOmega file)).take (v2MaxOmega file)

/-- Column `k` of the `j`-th pixel block. -/
def v2BlockCol (file : List (List ℚ)) (j k : ℕ) : List ℚ :=
  (v2Block file j).map (fun r => r.getD k 0)

/-- The assignments `M[k + Ch*j, :] = file[j*ω:(j+1)*ω, k+4]` in loop
order. -/
def v2Updates (file : List (List ℚ)) (chCount : ℕ) : List (ℕ × List ℚ) :=
  (List.range (v2MaxRow file * v2MaxCol file)).flatMap (fun j =>
    (List.range chCount).map (fun k =>
      (k + chCount * j, v2BlockCol file j (k + 4))))

/-- `M = np.full((N_rows, N_cols), NaN)` followed by the fill loop; the
NaN prefill is modelled by `0` and no theorem reads an unfilled cell. -/
def v2Data (file : List (List ℚ)) (chCount : ℕ) : List (List ℚ) :=
  setAll
    (List.replicate (v2MaxRow file * v2MaxCol file * chCount)
      (List.replicate (v2MaxOmega file) 0))
    (v2Updates file chCount)

/-- `waveN = file[0:Max_omega, 3]`. -/
def v2Axis (file : List (List ℚ)) : List ℚ :=
  (file.take (v2MaxOmega file)).map (fun r => r.getD 3 0)

/-- Modelled from the spec claim's words (claim C5): the shared axis as
the first block's omega/run-index column — column 2; to be compared with
`v2Axis`. -/
def specV2AxisCol2 (file : List (List ℚ)) : List ℚ :=
  (file.take (v2MaxOmega file)).map (fun r => r.getD 2 0)

/-- The `for i, e in enumerate(line): if e == "Wavenumber": … break`
search. -/
def findWavenumber : List String → Option ℕ
  | [] => none
  | t :: rest =>
    if t = "Wavenumber" then some 0 else (findWavenumber rest).map (· + 1)

/-- `Channel = line[index + 1:]`; when the token is absent, `index` was
never bound and Python raises `UnboundLocalError` at its use. -/
def v2Channels (line : List String) : Except String (List String) :=
  match findWavenumber line with
  | none => .error "UnboundLocalError: local variable referenced before assignment"
  | some i => .ok (line.drop (i + 1))

/-- `read_v2`: header-token processing plus the numeric reshape, returning
`(waveN, M)`. -/
def readV2 (line : List String) (file : List (List ℚ)) :
    Except String (List ℚ × List (List ℚ)) :=
  (v2Channels line).map (fun chans => (v2Axis file, v2Data file chans.length))

/-! ## GSF reader (`NeaReaderGSF`) -/

/-- Python `str.strip(":")`: removes leading and trailing colons. -/
def stripColons (s : String) : String :=
  (((s.toList.dropWhile (fun c => c = ':')).reverse.dropWhile
    (fun c => c = ':')).reverse).asString

/-- Modelled from the spec claim's words (claim C6): the key with (only)
its trailing colon removed; to be compared with `stripColons`. -/
def specKeyTrailingColon (s : String) : String :=
  if s.toList.getLast? = some ':' then (s.toList.dropLast).asString else s

/-- A metadata value of `_format_file`: the row's non-empty remaining
cells, a scalar when exactly one remains, else the list. -/
inductive NeaVal
  | one (s : String)
  | many (l : List String)
deriving DecidableEq

/-- The key `row[0].strip(":")`. -/
def gsfKey (row : List String) : String := stripColons (row.headD "")

/-- The value `[v for v in row[1:] if len(v)]`, unwrapped when it is a
singleton. -/
def gsfVal (row : List String) : NeaVal :=
  match (row.drop 1).filter (fun c => !c.isEmpty) with
  | [x] => .one x
  | l => .many l

/-- `dict.update` with a single key. -/
def dictSet (m : String → Option NeaVal) (k : String) (v : NeaVal) :
    String → Option NeaVal :=
  fun q => if q = k then some v else m q

/-- `_format_file`'s `info` dictionary: one `update` per HTML table row,
then the reader-identity key. -/
def formatInfo (tableRows : List (List String)) : String → Option NeaVal :=
  dictSet
    (tableRows.foldl (fun m row => dictSet m (gsfKey row) (gsfVal row))
      (fun _ => none))
    "Reader" (.one "NeaReaderGSF")

/-- The required-geometry lookups `info["Averaging"]` and
`info["Pixel Area (X, Y, Z)"]`; a missing key raises `KeyError`. -/
def gsfGeometry (info : String → Option NeaVal) :
    Except String (NeaVal × NeaVal) :=
  match info "Averaging" with
  | none => .error "KeyError: Averaging"
  | some a =>
    match info "Pixel Area (X, Y, Z)" with
    | none => .error "KeyError: Pixel Area (X, Y, Z)"
    | some p => .ok (a, p)

/-- The `_format_file` data rows: per image row `y`, per `x`, per `run`,
the amplitude slice then the phase slice; the running `i:f` window
advances by `px_z` per `(x, run)` pair, so the window is
`[(x*avg+run)*pz : (x*avg+run+1)*pz]`. -/
def gsfData (gsfA gsfP : List (List ℚ)) (avg px py pz : ℕ) :
    List (List ℚ) :=
  (List.range py).flatMap (fun y =>
    (List.range px).flatMap (fun x =>
      (List.range avg).flatMap (fun run =>
        [sliceTake (gsfA.getD y []) ((x * avg + run) * pz) pz,
         sliceTake (gsfP.getD y []) ((x * avg + run) * pz) pz])))

/-- The `_format_file` metadata rows `[x, y, run, channel]`, amplitude
then phase. -/
def gsfMetas (chA chP : String) (avg px py : ℕ) :
    List (ℕ × ℕ × ℕ × String) :=
  (List.range py).flatMap (fun y =>
    (List.range px).flatMap (fun x =>
      (List.range avg).flatMap (fun run =>
        [(x, y, run, chA), (x, y, run, chP)])))

/-- `depth = np.arange(0, px_z)`. -/
def gsfAxis (pz : ℕ) : List ℚ := (List.range pz).map (fun i : ℕ => (i : ℚ))

/-! ## Multichannel TXT reader (`NeaReaderMultiChannelTXT`) -/

/-- Outcome of a Python call: a normal value, a raised exception, or — the
reader's slip — an exception object returned as the value. -/
inductive PyResult (α : Type)
  | ok (a : α)
  | raised (msg : String)
  | returnedError (msg : String)
deriving DecidableEq

/-- The multichannel reader's header scan:
`header = [row for row in data if row.startswith("#")]`, executing
`return KeyError(...)` — not `raise` — when the header is empty. -/
def mcCheckHeader (lines : List String) : PyResult (List String) :=
  let header := lines.filter (fun r => r.toList.head? = some '#')
  if header.length = 0 then
    .returnedError "No header found in the file, please check the file format"
  else .ok header

/-- The fill loop of `NeaReaderMultiChannelTXT.read_spectra` as row
assignments in loop order (`loop_step = row*cols*runs + column*runs + run`,
`output_table_index = loop_step*channels_len + channel`). -/
def mcUpdates (input : List (List ℚ)) (chanCols : List ℕ)
    (rows cols runs depth : ℕ) : List (ℕ × List ℚ) :=
  (List.range rows).flatMap (fun row =>
    (List.range cols).flatMap (fun col =>
      (List.range runs).flatMap (fun run =>
        (List.range chanCols.length).map (fun ch =>
          (((row * cols * runs + col * runs + run) * chanCols.length) + ch,
           ((input.drop (depth * (row * cols * runs + col * runs + run))).take
             depth).map (fun r => r.getD (chanCols.getD ch 0) 0))))))

/-- `out_data = np.zeros((out_rows, out_cols))` followed by the fill
loop. -/
def mcOutData (input : List (List ℚ)) (chanCols : List ℕ)
    (rows cols runs depth : ℕ) : List (List ℚ) :=
  setAll
    (List.replicate (chanCols.length * runs * rows * cols)
      (List.replicate depth 0))
    (mcUpdates input chanCols rows cols runs depth)

/-- `out_data_headers = np.arange(0, depth, 1)`. -/
def mcAxis (depth : ℕ) : List ℚ := (List.range depth).map (fun i : ℕ => (i : ℚ))

/-! ## Concrete inputs used by counterexamples and witnesses -/

/-- A legacy file with one pixel, one run and two harmonics. -/
def recsTwoHarm : List NeaRecord :=
  [⟨0, 0, 0, "M", [1, 2]⟩,
   ⟨0, 0, 0, "O0A", [5, 6]⟩,
   ⟨0, 0, 0, "O0P", [7, 8]⟩,
   ⟨0, 0, 0, "O1A", [9, 10]⟩,
   ⟨0, 0, 0, "O1P", [11, 12]⟩]

/-- A legacy file whose two reference ranges `[0,1]` and `[2,3]` are
disjoint, so the accumulated envelope is empty (`min_intp > max_intp`). -/
def recsDisjoint : List NeaRecord :=
  [⟨0, 0, 0, "M", [0, 1]⟩,
   ⟨0, 1, 0, "M", [2, 3]⟩]

/-- A legacy file with two overlapping reference ranges. -/
def recsOverlap : List NeaRecord :=
  [⟨0, 0, 0, "M", [0, 3]⟩,
   ⟨0, 0, 1, "M", [1, 4]⟩,
   ⟨0, 0, 0, "O0A", [5, 6]⟩,
   ⟨0, 0, 0, "O0P", [7, 8]⟩]

/-- A modern (v2) header line. -/
def hdrV2 : List String := ["Row", "Column", "Omega", "Wavenumber", "O1A"]

/-- A modern (v2) numeric block with `Max_row = Max_col = 1`,
`Max_omega = 2`, one channel column; column 2 (omega index) and column 3
(wavenumber) hold different values. -/
def fileV2Small : List (List ℚ) :=
  [[0, 0, 0, 10, 5],
   [0, 0, 1, 20, 6]]

/-! ## Helper lemmas -/

theorem setAll_cons (M : List (List ℚ)) (u : ℕ × List ℚ) (us : List (ℕ × List ℚ)) :
    setAll M (u :: us) = setAll (M.set u.1 u.2) us := rfl

theorem length_setAll (us : List (ℕ × List ℚ)) :
    ∀ M : List (List ℚ), (setAll M us).length = M.length := by
  induction us with
  | nil => intro M; rfl
  | cons u us ih =>
    intro M
    rw [setAll_cons, ih]
    simp

theorem mem_setAll (us : List (ℕ × List ℚ)) :
    ∀ (M : List (List ℚ)) (row : List ℚ), row ∈ setAll M us →
      row ∈ M ∨ ∃ u ∈ us, row = u.2 := by
  induction us with
  | nil => intro M row h; exact Or.inl h
  | cons u us ih =>
    intro M row h
    rw [setAll_cons] at h
    rcases ih _ _ h with h' | ⟨v, hv, rfl⟩
    · rcases List.mem_or_eq_of_mem_set h' with h'' | rfl
      · exact Or.inl h''
      · exact Or.inr ⟨u, List.mem_cons_self u us, rfl⟩
    · exact Or.inr ⟨v, List.mem_cons_of_mem _ hv, rfl⟩

theorem mem_setAll_length {d : ℕ} (us : List (ℕ × List ℚ)) (M : List (List ℚ))
    (hM : ∀ row ∈ M, row.length = d) (hus : ∀ u ∈ us, u.2.length = d) :
    ∀ row ∈ setAll M us, row.length = d := by
  intro row h
  rcases mem_setAll us M row h with h' | ⟨u, hu, rfl⟩
  · exact hM _ h'
  · exact hus u hu

theorem vecMin_cons (x : ℚ) (l : List ℚ) : vecMin (x :: l) = l.foldl min x := rfl

theorem vecMax_cons (x : ℚ) (l : List ℚ) : vecMax (x :: l) = l.foldl max x := rfl

theorem length_linspace (a b : ℚ) (n : ℕ) : (linspace a b n).length = n := by
  unfold linspace
  split <;> simp

theorem mem_linspace_bounds {a b x : ℚ} {n : ℕ} (hab : a ≤ b)
    (hx : x ∈ linspace a b n) : a ≤ x ∧ x ≤ b := by
  unfold linspace at hx
  split at hx
  · obtain ⟨i, _, rfl⟩ := List.mem_map.mp hx
    exact ⟨le_refl a, hab⟩
  · obtain ⟨i, hi, rfl⟩ := List.mem_map.mp hx
    rename_i hn
    have hir : i < n := List.mem_range.mp hi
    have hn2 : 2 ≤ n := by omega
    have hn1 : (1 : ℚ) ≤ (n : ℚ) - 1 := by
      have h2 : (2 : ℚ) ≤ (n : ℚ) := by exact_mod_cast hn2
      linarith
    have hd : (0 : ℚ) ≤ b - a := by linarith
    have hipos : (0 : ℚ) ≤ (i : ℚ) := Nat.cast_nonneg i
    have hile : (i : ℚ) ≤ (n : ℚ) - 1 := by
      have h1 : i + 1 ≤ n := hir
      have h2 : ((i + 1 : ℕ) : ℚ) ≤ (n : ℚ) := by exact_mod_cast h1
      push_cast at h2
      linarith
    have hfrac0 : (0 : ℚ) ≤ (b - a) * (i : ℚ) / ((n : ℚ) - 1) := by positivity
    have hfrac1 : (b - a) * (i : ℚ) / ((n : ℚ) - 1) ≤ b - a := by
      rw [div_le_iff (by linarith)]
      nlinarith
    constructor <;> linarith

theorem chain'_linspace {a b : ℚ} (h : a < b) (n : ℕ) :
    (linspace a b n).Chain' (· < ·) := by
  unfold linspace
  split
  · rename_i hn
    rcases Nat.le_one_iff_eq_zero_or_eq_one.mp hn with rfl | rfl <;> simp
  · rename_i hn
    have hn2 : 2 ≤ n := by omega
    obtain ⟨m, rfl⟩ : ∃ m, n = m + 1 := ⟨n - 1, by omega⟩
    rw [List.chain'_map, List.chain'_range_succ]
    intro i _
    have hn1 : (0 : ℚ) < ((m + 1 : ℕ) : ℚ) - 1 := by
      have h2 : (2 : ℚ) ≤ ((m + 1 : ℕ) : ℚ) := by exact_mod_cast hn2
      linarith
    have hd : (0 : ℚ) < b - a := by linarith
    apply add_lt_add_left
    rw [div_lt_div_iff hn1 hn1]
    have hcast : (i : ℚ) < ((i + 1 : ℕ) : ℚ) := by push_cast; linarith
    have hstep : (b - a) * (i : ℚ) < (b - a) * ((i + 1 : ℕ) : ℚ) :=
      mul_lt_mul_of_pos_left hcast hd
    exact mul_lt_mul_of_pos_right hstep hn1

theorem chain'_linspace_gt {a b : ℚ} (h : b < a) (n : ℕ) :
    (linspace a b n).Chain' (· > ·) := by
  unfold linspace
  split
  · rename_i hn
    rcases Nat.le_one_iff_eq_zero_or_eq_one.mp hn with rfl | rfl <;> simp
  · rename_i hn
    have hn2 : 2 ≤ n := by omega
    obtain ⟨m, rfl⟩ : ∃ m, n = m + 1 := ⟨n - 1, by omega⟩
    rw [List.chain'_map, List.chain'_range_succ]
    intro i _
    have hn1 : (0 : ℚ) < ((m + 1 : ℕ) : ℚ) - 1 := by
      have h2 : (2 : ℚ) ≤ ((m + 1 : ℕ) : ℚ) := by exact_mod_cast hn2
      linarith
    have hd : b - a < 0 := by linarith
    apply add_lt_add_left
    rw [div_lt_div_iff hn1 hn1]
    have hcast : (i : ℚ) < ((i + 1 : ℕ) : ℚ) := by push_cast; linarith
    have hstep : (b - a) * ((i + 1 : ℕ) : ℚ) < (b - a) * (i : ℚ) :=
      mul_lt_mul_of_neg_left hcast hd
    exact mul_lt_mul_of_pos_right hstep hn1

theorem le_foldl_max (l : List ℚ) : ∀ a : ℚ, a ≤ l.foldl max a := by
  induction l with
  | nil => intro a; exact le_refl a
  | cons x l ih =>
    intro a
    exact le_trans (le_max_left a x) (ih (max a x))

theorem le_foldl_max_of_mem {x : ℚ} {l : List ℚ} (h : x ∈ l) :
    ∀ a : ℚ, x ≤ l.foldl max a := by
  induction l with
  | nil => simp at h
  | cons y l ih =>
    intro a
    rcases List.mem_cons.mp h with rfl | h'
    · exact le_trans (le_max_right a x) (le_foldl_max l (max a x))
    · exact ih h' (max a y)

theorem foldl_min_le (l : List ℚ) : ∀ a : ℚ, l.foldl min a ≤ a := by
  induction l with
  | nil => intro a; exact le_refl a
  | cons x l ih =>
    intro a
    exact le_trans (ih (min a x)) (min_le_left a x)

theorem foldl_min_le_of_mem {x : ℚ} {l : List ℚ} (h : x ∈ l) :
    ∀ a : ℚ, l.foldl min a ≤ x := by
  induction l with
  | nil => simp at h
  | cons y l ih =>
    intro a
    rcases List.mem_cons.mp h with rfl | h'
    · exact le_trans (foldl_min_le l (min a x)) (min_le_right a x)
    · exact ih h' (min a y)

theorem le_vecMax_of_mem {x : ℚ} {l : List ℚ} (h : x ∈ l) : x ≤ vecMax l := by
  cases l with
  | nil => simp at h
  | cons y l =>
    rcases List.mem_cons.mp h with rfl | h'
    · exact le_foldl_max l x
    · exact le_foldl_max_of_mem h' y

theorem vecMin_le_of_mem {x : ℚ} {l : List ℚ} (h : x ∈ l) : vecMin l ≤ x := by
  cases l with
  | nil => simp at h
  | cons y l =>
    rcases List.mem_cons.mp h with rfl | h'
    · exact foldl_min_le l x
    · exact foldl_min_le_of_mem h' y

theorem mVecs_cons (r : NeaRecord) (recs : List NeaRecord) :
    mVecs (r :: recs) =
      if isM r.chan then r.samples :: mVecs recs else mVecs recs := by
  unfold mVecs
  rw [List.filter_cons]
  split <;> simp_all

theorem env_foldl_some (ls : List NeaRecord) :
    ∀ a b : ℚ, (∀ r ∈ ls, r.samples ≠ []) →
    ls.foldl envStep (some (a, b)) =
      some ((mVecs ls).foldl (fun x m => max x (vecMin m)) a,
            (mVecs ls).foldl (fun x m => min x (vecMax m)) b) := by
  induction ls with
  | nil => intro a b _; simp [mVecs]
  | cons r ls ih =>
    intro a b hne
    rw [List.foldl_cons, mVecs_cons]
    by_cases hM : isM r.chan
    · have hs : ¬r.samples.isEmpty := by
        simp only [List.isEmpty_iff]
        exact hne r (List.mem_cons_self r ls)
      have hstep : envStep (some (a, b)) r =
          some (max a (vecMin r.samples), min b (vecMax r.samples)) := by
        simp [envStep, hM, hs]
      rw [hstep, ih _ _ (fun t ht => hne t (List.mem_cons_of_mem r ht))]
      simp [hM]
    · have hstep : envStep (some (a, b)) r = some (a, b) := by
        simp [envStep, hM]
      rw [hstep, ih _ _ (fun t ht => hne t (List.mem_cons_of_mem r ht))]
      simp [hM]

theorem v1Envelope_char (recs : List NeaRecord)
    (hne : ∀ r ∈ recs, r.samples ≠ []) (hM : mVecs recs ≠ []) :
    v1Envelope recs = some (maxOfMins recs, minOfMaxes recs) := by
  induction recs with
  | nil => simp [mVecs] at hM
  | cons r recs ih =>
    by_cases h : isM r.chan
    · have hs : r.samples ≠ [] := hne r (List.mem_cons_self r recs)
      have hs' : ¬r.samples.isEmpty := by simpa only [List.isEmpty_iff] using hs
      have hstep : envStep none r = some (vecMin r.samples, vecMax r.samples) := by
        simp [envStep, h, hs']
      rw [v1Envelope, List.foldl_cons, hstep,
        env_foldl_some recs _ _ (fun t ht => hne t (List.mem_cons_of_mem r ht))]
      unfold maxOfMins minOfMaxes
      rw [mVecs_cons]
      simp only [h, if_true]
      rw [List.map_cons, List.map_cons, vecMax_cons, vecMin_cons,
        List.foldl_map, List.foldl_map]
    · have hstep : envStep none r = none := by simp [envStep, h]
      have hM' : mVecs recs ≠ [] := by
        rw [mVecs_cons] at hM
        simpa [h] using hM
      have := ih (fun t ht => hne t (List.mem_cons_of_mem r ht)) hM'
      rw [v1Envelope, List.foldl_cons, hstep]
      rw [v1Envelope] at this
      rw [this]
      unfold maxOfMins minOfMaxes
      rw [mVecs_cons]
      simp [h]

theorem v1M_mem_mVecs {recs : List NeaRecord} {r c run : ℕ} {m : List ℚ}
    (h : v1M recs r c run = some m) : m ∈ mVecs recs := by
  unfold v1M at h
  rw [Option.map_eq_some'] at h
  obtain ⟨t, ht, rfl⟩ := h
  have htm := List.mem_of_mem_getLast? ht
  rw [List.mem_filter] at htm
  obtain ⟨htrecs, hpred⟩ := htm
  simp only [Bool.and_eq_true] at hpred
  refine List.mem_map.mpr ⟨t, ?_, rfl⟩
  rw [List.mem_filter]
  exact ⟨htrecs, hpred.2⟩

theorem length_flatMap_const {α β : Type} (l : List α) (f : α → List β) (k : ℕ)
    (hf : ∀ x ∈ l, (f x).length = k) : (l.flatMap f).length = l.length * k := by
  induction l with
  | nil => simp
  | cons x l ih =>
    rw [List.flatMap_cons, List.length_append, hf x (List.mem_cons_self x l),
      ih (fun y hy => hf y (List.mem_cons_of_mem x hy))]
    simp [Nat.succ_mul, Nat.add_comm]

theorem getElem?_flatMap_uniform {α β : Type} (k : ℕ) (f : α → List β) :
    ∀ (l : List α) (i j : ℕ) (x : α), (∀ y ∈ l, (f y).length = k) →
      l[i]? = some x → j < k → (l.flatMap f)[i * k + j]? = (f x)[j]? := by
  intro l
  induction l with
  | nil => intro i j x _ hx; simp at hx
  | cons y l ih =>
    intro i j x hf hx hj
    rw [List.flatMap_cons]
    cases i with
    | zero =>
      have hxy : y = x := by simpa using hx
      subst hxy
      rw [Nat.zero_mul, Nat.zero_add,
        List.getElem?_append_left (by rw [hf y (List.mem_cons_self y l)]; exact hj)]
    | succ i =>
      rw [List.getElem?_cons_succ] at hx
      have hlen : (f y).length = k := hf y (List.mem_cons_self y l)
      have harith : (i + 1) * k + j = (f y).length + (i * k + j) := by
        rw [hlen]; ring
      rw [harith, List.getElem?_append_right (by omega)]
      have : (f y).length + (i * k + j) - (f y).length = i * k + j := by omega
      rw [this]
      exact ih i j x (fun z hz => hf z (List.mem_cons_of_mem y hz)) hx hj

theorem mem_v1PixelMetas {t : ℕ × ℕ × String} {r c nh : ℕ}
    (h : t ∈ v1PixelMetas r c nh) : t.1 = r ∧ t.2.1 = c := by
  unfold v1PixelMetas at h
  rcases List.mem_append.mp h with h' | h' <;>
    · obtain ⟨i, _, rfl⟩ := List.mem_map.mp h'
      exact ⟨rfl, rfl⟩

theorem length_v1PixelMetas (r c nh : ℕ) :
    (v1PixelMetas r c nh).length = 2 * nh := by
  unfold v1PixelMetas
  simp
  ring

theorem filter_flatMap_pixel (nh r c : ℕ) :
    ∀ pxs : List (ℕ × ℕ), pxs.Nodup → (r, c) ∈ pxs →
    ((pxs.flatMap (fun p => v1PixelMetas p.1 p.2 nh)).filter
      (fun t => t.1 == r && t.2.1 == c)) = v1PixelMetas r c nh := by
  intro pxs
  induction pxs with
  | nil => intro _ hmem; simp at hmem
  | cons p pxs ih =>
    intro hnd hmem
    rw [List.flatMap_cons, List.filter_append]
    rcases List.mem_cons.mp hmem with heq | hmem'
    · subst heq
      have h1 : (v1PixelMetas r c nh).filter (fun t => t.1 == r && t.2.1 == c)
          = v1PixelMetas r c nh := by
        rw [List.filter_eq_self]
        intro t ht
        have := mem_v1PixelMetas ht
        simp [this.1, this.2]
      have hnotin : (r, c) ∉ pxs := (List.nodup_cons.mp hnd).1
      have h2 : ((pxs.flatMap (fun p => v1PixelMetas p.1 p.2 nh)).filter
          (fun t => t.1 == r && t.2.1 == c)) = [] := by
        rw [List.filter_eq_nil_iff]
        intro t ht
        obtain ⟨q, hq, htq⟩ := List.mem_flatMap.mp ht
        have hqt := mem_v1PixelMetas htq
        intro hcontra
        simp only [Bool.and_eq_true, beq_iff_eq] at hcontra
        apply hnotin
        have : q = (r, c) := by
          rcases q with ⟨q1, q2⟩
          simp only at hqt
          rw [← hqt.1, ← hqt.2, ← hcontra.1, ← hcontra.2]
        rw [← this]
        exact hq
      rw [h1, h2, List.append_nil]
    · have hp : p ≠ (r, c) := by
        rintro rfl
        exact (List.nodup_cons.mp hnd).1 hmem'
      have h1 : (v1PixelMetas p.1 p.2 nh).filter
          (fun t => t.1 == r && t.2.1 == c) = [] := by
        rw [List.filter_eq_nil_iff]
        intro t ht hcontra
        have hqt := mem_v1PixelMetas ht
        simp only [Bool.and_eq_true, beq_iff_eq] at hcontra
        apply hp
        rcases p with ⟨p1, p2⟩
        simp only at hqt
        rw [← hqt.1, ← hqt.2, hcontra.1, hcontra.2]
      rw [h1, List.nil_append]
      exact ih (List.nodup_cons.mp hnd).2 hmem'

theorem gsfFold_lookup (rows : List (List String)) :
    ∀ (m : String → Option NeaVal) (k : String),
    (rows.foldl (fun m row => dictSet m (gsfKey row) (gsfVal row)) m) k =
      (match (rows.filter (fun row => gsfKey row == k)).getLast? with
       | some row => some (gsfVal row)
       | none => m k) := by
  induction rows with
  | nil => intro m k; rfl
  | cons row rows ih =>
    intro m k
    rw [List.foldl_cons, ih, List.filter_cons]
    by_cases h : gsfKey row = k
    · simp only [h, beq_self_eq_true, if_true]
      cases hfilter : rows.filter (fun q => gsfKey q == k) with
      | nil =>
        simp [dictSet, h]
      | cons a l =>
        rw [List.getLast?_cons_cons]
        cases hq : (a :: l).getLast? with
        | none => simp [List.getLast?_eq_none_iff] at hq
        | some q => rfl
    · have hb : (gsfKey row == k) = false := by simp [h]
      simp only [hb, Bool.false_eq_true, if_false]
      cases hq : (rows.filter (fun q => gsfKey q == k)).getLast? with
      | none => simp [dictSet, Ne.symm h]
      | some q => rfl

theorem length_v1PixelDataRows (recs : List NeaRecord) (r c : ℕ) (X : List ℚ) :
    (v1PixelDataRows recs r c X).length = 2 * numharmonics recs := by
  unfold v1PixelDataRows
  simp
  ring

/-! ## Claim theorems -/

/-- C1 (counterexample): on a legacy file with two harmonics at pixel
`(0,0)`, `read_v1` emits the rows `O0A, O1A, O0P, O1P` — all amplitude
rows first, then all phase rows — not the interleaved order
`O0A, O0P, O1A, O1P` asserted by the claim. -/
theorem C1_counterexample :
    v1Metas recsTwoHarm = [(0, 0, "O0A"), (0, 0, "O1A"), (0, 0, "O0P"), (0, 0, "O1P")]
    ∧ specInterleavedMetas recsTwoHarm
        = [(0, 0, "O0A"), (0, 0, "O0P"), (0, 0, "O1A"), (0, 0, "O1P")]
    ∧ v1Metas recsTwoHarm ≠ specInterleavedMetas recsTwoHarm :=
  ⟨by decide, by decide, by decide⟩

/-- C1 (amended): for every pixel of a legacy file, `read_v1` emits exactly
`2 × numharmonics` rows — one amplitude and one phase row per harmonic —
but grouped, all amplitude rows in ascending harmonic order followed by all
phase rows in ascending harmonic order (not interleaved); the data matrix
has one row per metadata row. -/
theorem C1_amended (recs : List NeaRecord) (r c : ℕ) (X : List ℚ)
    (hmem : (r, c) ∈ uniquePixels recs) :
    ((v1Metas recs).filter (fun t => t.1 == r && t.2.1 == c))
      = ((List.range (numharmonics recs)).map (fun i => (r, c, oA i)))
        ++ ((List.range (numharmonics recs)).map (fun i => (r, c, oP i)))
    ∧ ((v1Metas recs).countP (fun t => t.1 == r && t.2.1 == c))
        = 2 * numharmonics recs
    ∧ (v1DataRows recs X).length = (v1Metas recs).length := by
  have hfilter := filter_flatMap_pixel (numharmonics recs) r c
    (uniquePixels recs) (List.nodup_dedup _) hmem
  refine ⟨hfilter, ?_, ?_⟩
  · rw [List.countP_eq_length_filter]
    unfold v1Metas
    unfold v1Metas at hfilter
    rw [hfilter, length_v1PixelMetas]
  · unfold v1DataRows v1Metas
    rw [length_flatMap_const _ _ (2 * numharmonics recs)
        (fun p _ => length_v1PixelDataRows recs p.1 p.2 X),
      length_flatMap_const _ _ (2 * numharmonics recs)
        (fun p _ => length_v1PixelMetas p.1 p.2 (numharmonics recs))]

/-- C1 (witness): the amended statement instantiated on the concrete
two-harmonic file. -/
theorem C1_amended_witness :
    ((v1Metas recsTwoHarm).filter (fun t => t.1 == 0 && t.2.1 == 0))
      = ((List.range (numharmonics recsTwoHarm)).map (fun i => (0, 0, oA i)))
        ++ ((List.range (numharmonics recsTwoHarm)).map (fun i => (0, 0, oP i)))
    ∧ ((v1Metas recsTwoHarm).countP (fun t => t.1 == 0 && t.2.1 == 0))
        = 2 * numharmonics recsTwoHarm
    ∧ (v1DataRows recsTwoHarm [1, 2]).length = (v1Metas recsTwoHarm).length :=
  C1_amended recsTwoHarm 0 0 [1, 2] (by decide)

/-- C2: the accumulated `(min_intp, max_intp)` envelope of `read_v1`
equals the intersection of all per-record reference ranges — the maximum
over all observed `M` sample vectors of that vector's minimum paired with
the minimum over all observed `M` vectors of that vector's maximum —
accumulated over every `M` record in the file regardless of pixel. -/
theorem C2_envelope (recs : List NeaRecord)
    (hne : ∀ r ∈ recs, r.samples ≠ []) (hM : mVecs recs ≠ []) :
    v1Envelope recs = some (maxOfMins recs, minOfMaxes recs) :=
  v1Envelope_char recs hne hM

/-- C2 (witness): the envelope statement instantiated on a concrete file
with two overlapping reference ranges. -/
theorem C2_envelope_witness :
    v1Envelope recsOverlap = some (maxOfMins recsOverlap, minOfMaxes recsOverlap) :=
  C2_envelope recsOverlap (by decide) (by decide)

/-- C8 (counterexample): on a legacy file whose two reference ranges
`[0,1]` and `[2,3]` are disjoint, the accumulated envelope is
`(min_intp, max_intp) = (2, 1)` and the common axis
`np.linspace(2, 1, 2) = [2, 1]` is strictly decreasing, refuting the
claimed unconditional strict monotonicity. -/
theorem C8_counterexample :
    v1Axis recsDisjoint 6 = [2, 1]
    ∧ ¬ (v1Axis recsDisjoint 6).Chain' (· < ·) := by
  have henv : v1Envelope recsDisjoint = some (2, 1) := by decide
  have h1 : v1Axis recsDisjoint 6 = [2, 1] := by
    unfold v1Axis
    rw [henv]
    norm_num [linspace, List.range_succ]
  refine ⟨h1, ?_⟩
  rw [h1]
  intro hchain
  have h21 : (2 : ℚ) < 1 := (List.chain'_cons.mp hchain).1
  norm_num at h21

/-- C8 (amended): whenever the envelope of a legacy file exists, the
common axis of `read_v1` has length equal to the sample-column count
(`ncols - 4`); it is strictly increasing when the envelope is
non-degenerate (`min_intp < max_intp`) and strictly decreasing when the
per-run reference ranges are disjoint (`min_intp > max_intp`). -/
theorem C8_amended (recs : List NeaRecord) (ncols : ℕ) (a b : ℚ)
    (henv : v1Envelope recs = some (a, b)) :
    (v1Axis recs ncols).length = ncols - 4
    ∧ (a < b → (v1Axis recs ncols).Chain' (· < ·))
    ∧ (b < a → (v1Axis recs ncols).Chain' (· > ·)) := by
  unfold v1Axis
  rw [henv]
  exact ⟨length_linspace a b _,
    fun hab => chain'_linspace hab _,
    fun hba => chain'_linspace_gt hba _⟩

/-- C8 (witness): the amended statement instantiated on a concrete file
with overlapping reference ranges (envelope `(1, 3)`). -/
theorem C8_amended_witness :
    (v1Axis recsOverlap 5).length = 5 - 4
    ∧ ((1 : ℚ) < 3 → (v1Axis recsOverlap 5).Chain' (· < ·))
    ∧ ((3 : ℚ) < 1 → (v1Axis recsOverlap 5).Chain' (· > ·)) :=
  C8_amended recsOverlap 5 1 3 (by decide)

/-- C10: when every reference vector used for interpolation is recorded
(`v1M` yields a vector) and the accumulated envelope `(a, b)` satisfies
`a ≤ b`, every common-axis point lies within the min/max range of each
run's own reference vector, so `interp1d`'s out-of-domain error branch is
unreachable. -/
theorem C10_interpolation_domain (recs : List NeaRecord) (ncols : ℕ) (a b : ℚ)
    (hne : ∀ rec ∈ recs, rec.samples ≠ [])
    (henv : v1Envelope recs = some (a, b)) (hab : a ≤ b)
    (r c run : ℕ) (m : List ℚ) (hm : v1M recs r c run = some m)
    (x : ℚ) (hx : x ∈ v1Axis recs ncols) :
    vecMin m ≤ x ∧ x ≤ vecMax m := by
  have hmem : m ∈ mVecs recs := v1M_mem_mVecs hm
  have hMne : mVecs recs ≠ [] := by
    intro hnil
    rw [hnil] at hmem
    simp at hmem
  have hchar := v1Envelope_char recs hne hMne
  rw [henv] at hchar
  have hpair := Option.some.inj hchar
  have ha : a = maxOfMins recs := congrArg Prod.fst hpair
  have hb : b = minOfMaxes recs := congrArg Prod.snd hpair
  have hminle : vecMin m ≤ a := by
    rw [ha]
    unfold maxOfMins
    exact le_vecMax_of_mem (List.mem_map_of_mem vecMin hmem)
  have hble : b ≤ vecMax m := by
    rw [hb]
    unfold minOfMaxes
    exact vecMin_le_of_mem (List.mem_map_of_mem vecMax hmem)
  have hx' : x ∈ linspace a b (ncols - 4) := by
    unfold v1Axis at hx
    rw [henv] at hx
    exact hx
  obtain ⟨h1, h2⟩ := mem_linspace_bounds hab hx'
  exact ⟨le_trans hminle h1, le_trans h2 hble⟩

/-- C10 (witness): the domain-safety statement instantiated on a concrete
file: the axis point `1` lies inside the recorded reference range
`[0, 3]` of pixel `(0,0)`, run `0`. -/
theorem C10_witness : vecMin [0, 3] ≤ (1 : ℚ) ∧ (1 : ℚ) ≤ vecMax [0, 3] :=
  C10_interpolation_domain recsOverlap 5 1 3 (by decide) (by decide) (by decide)
    0 0 0 [0, 3] (by decide) 1 (by decide)

theorem idx_bound {x px run avg t : ℕ} (hx : x < px) (hr : run < avg)
    (ht : t < 2) : x * (avg * 2) + (run * 2 + t) < px * (avg * 2) := by
  have h1 : run * 2 + t < avg * 2 := by omega
  calc x * (avg * 2) + (run * 2 + t) < x * (avg * 2) + avg * 2 := by omega
    _ = (x + 1) * (avg * 2) := by ring
    _ ≤ px * (avg * 2) := Nat.mul_le_mul_right _ hx

theorem flatMap3_length {β : Type} (g : ℕ → ℕ → ℕ → List β) (py px avg : ℕ)
    (hg : ∀ y x r, (g y x r).length = 2) :
    ((List.range py).flatMap (fun y => (List.range px).flatMap (fun x =>
      (List.range avg).flatMap (fun r => g y x r)))).length
      = 2 * px * py * avg := by
  have hF2 : ∀ y' x',
      ((List.range avg).flatMap (fun r => g y' x' r)).length = avg * 2 := by
    intro y' x'
    rw [length_flatMap_const _ _ 2 (fun r _ => hg y' x' r), List.length_range]
  have hF1 : ∀ y', ((List.range px).flatMap (fun x' =>
      (List.range avg).flatMap (fun r => g y' x' r))).length
      = px * (avg * 2) := by
    intro y'
    rw [length_flatMap_const _ _ (avg * 2) (fun x' _ => hF2 y' x'),
      List.length_range]
  rw [length_flatMap_const _ _ (px * (avg * 2)) (fun y' _ => hF1 y'),
    List.length_range]
  ring

theorem flatMap3_getElem {β : Type} (g : ℕ → ℕ → ℕ → List β) (py px avg : ℕ)
    (hg : ∀ y x r, (g y x r).length = 2)
    (y x r t : ℕ) (hy : y < py) (hx : x < px) (hr : r < avg) (ht : t < 2) :
    ((List.range py).flatMap (fun y => (List.range px).flatMap (fun x =>
      (List.range avg).flatMap (fun r => g y x r))))[2 * ((y * px + x) * avg + r) + t]?
      = (g y x r)[t]? := by
  have hF2 : ∀ y' x',
      ((List.range avg).flatMap (fun r => g y' x' r)).length = avg * 2 := by
    intro y' x'
    rw [length_flatMap_const _ _ 2 (fun r _ => hg y' x' r), List.length_range]
  have hF1 : ∀ y', ((List.range px).flatMap (fun x' =>
      (List.range avg).flatMap (fun r => g y' x' r))).length
      = px * (avg * 2) := by
    intro y'
    rw [length_flatMap_const _ _ (avg * 2) (fun x' _ => hF2 y' x'),
      List.length_range]
  have harith : 2 * ((y * px + x) * avg + r) + t
      = y * (px * (avg * 2)) + (x * (avg * 2) + (r * 2 + t)) := by ring
  rw [harith]
  rw [getElem?_flatMap_uniform (px * (avg * 2)) _ (List.range py) y _ y
    (fun y' _ => hF1 y') (by simp [hy]) (idx_bound hx hr ht)]
  rw [getElem?_flatMap_uniform (avg * 2) _ (List.range px) x _ x
    (fun x' _ => hF2 y x') (by simp [hx]) (by omega)]
  rw [getElem?_flatMap_uniform 2 _ (List.range avg) r t r
    (fun r' _ => hg y x r') (by simp [hr]) ht]

/-- C4 (counterexample): on a modern (v2) file with `Max_row = Max_col = 1`,
one channel and `Max_omega = 2`, the data matrix of `read_v2` has 1 row
while `rows × columns × channels × runs` (with runs the omega count) is 2,
so the claimed product equality fails for `read_v2`. -/
theorem C4_counterexample :
    (readV2 hdrV2 fileV2Small).map (fun p => p.2.length) = Except.ok 1
    ∧ v2MaxRow fileV2Small * v2MaxCol fileV2Small * 1 * v2MaxOmega fileV2Small = 2
    ∧ (readV2 hdrV2 fileV2Small).map (fun p => p.2.length)
        ≠ Except.ok (v2MaxRow fileV2Small * v2MaxCol fileV2Small * 1
            * v2MaxOmega fileV2Small) := by
  refine ⟨rfl, by decide, ?_⟩
  intro hcontra
  rw [show v2MaxRow fileV2Small * v2MaxCol fileV2Small * 1
      * v2MaxOmega fileV2Small = 2 from by decide] at hcontra
  rw [show (readV2 hdrV2 fileV2Small).map (fun p => p.2.length)
      = Except.ok 1 from rfl] at hcontra
  exact absurd (Except.ok.inj hcontra) (by decide)

/-- C4 (amended): the data-matrix row count of `read_v2` is
`Max_row × Max_col × channels` (the run/omega count forms the columns, not
a row factor), while for `NeaReaderMultiChannelTXT.read_spectra` the row
count is `channels × runs × rows × columns` as the claim states. -/
theorem C4_amended (file : List (List ℚ)) (chCount : ℕ)
    (input : List (List ℚ)) (chanCols : List ℕ) (rows cols runs depth : ℕ) :
    (v2Data file chCount).length = v2MaxRow file * v2MaxCol file * chCount
    ∧ (mcOutData input chanCols rows cols runs depth).length
        = chanCols.length * runs * rows * cols := by
  constructor
  · unfold v2Data
    rw [length_setAll]
    simp
  · unfold mcOutData
    rw [length_setAll]
    simp

/-- C5 (counterexample): on a v2 file whose omega-index column (column 2)
and wavenumber column (column 3) differ, the axis returned by `read_v2` is
the column-3 values `[10, 20]`, not the column-2 values `[0, 1]` named by
the claim. -/
theorem C5_counterexample :
    v2Axis fileV2Small = [10, 20]
    ∧ specV2AxisCol2 fileV2Small = [0, 1]
    ∧ v2Axis fileV2Small ≠ specV2AxisCol2 fileV2Small :=
  ⟨by decide, by decide, by decide⟩

/-- C5 (amended): the shared axis of `read_v2` is the first pixel block's
column-3 (wavenumber) values taken as-is, of length `Max_omega`. -/
theorem C5_amended (line : List String) (file : List (List ℚ))
    (axis : List ℚ) (data : List (List ℚ))
    (hok : readV2 line file = .ok (axis, data))
    (hlen : v2MaxOmega file ≤ file.length) :
    axis = (v2Block file 0).map (fun r => r.getD 3 0)
    ∧ axis.length = v2MaxOmega file := by
  have haxis : axis = v2Axis file := by
    unfold readV2 at hok
    cases hch : v2Channels line with
    | error e => rw [hch] at hok; simp [Except.map] at hok
    | ok chans =>
      rw [hch] at hok
      simp only [Except.map] at hok
      have := Except.ok.inj hok
      exact (congrArg Prod.fst this).symm
  subst haxis
  constructor
  · unfold v2Axis v2Block
    simp
  · unfold v2Axis
    simp [hlen]

/-- C5 (witness): the amended statement instantiated on the concrete v2
file. -/
theorem C5_amended_witness :
    v2Axis fileV2Small = (v2Block fileV2Small 0).map (fun r => r.getD 3 0)
    ∧ (v2Axis fileV2Small).length = v2MaxOmega fileV2Small :=
  C5_amended hdrV2 fileV2Small (v2Axis fileV2Small) (v2Data fileV2Small 1)
    rfl (by decide)

/-- C3: evaluation of the three guard paths. A v2 header without
`"Wavenumber"` raises (`UnboundLocalError`), a GSF metadata dictionary
missing `Averaging` or `Pixel Area (X, Y, Z)` raises (`KeyError`), but the
multichannel TXT reader with no `#` header lines RETURNS a `KeyError`
object instead of raising it — the error never surfaces and the caller
receives an exception instance in place of a table. -/
theorem C3_error_paths :
    v2Channels ["Row", "Column", "Omega"]
      = Except.error "UnboundLocalError: local variable referenced before assignment"
    ∧ gsfGeometry (fun _ => none) = Except.error "KeyError: Averaging"
    ∧ gsfGeometry (formatInfo [["Averaging:", "5"]])
        = Except.error "KeyError: Pixel Area (X, Y, Z)"
    ∧ mcCheckHeader ["0\t1\t2"]
        = PyResult.returnedError
            "No header found in the file, please check the file format" :=
  ⟨rfl, rfl, rfl, rfl⟩

/-- C6 (counterexample): on an HTML table row whose first cell is `":A:"`,
the code's `strip(":")` removes the LEADING colon as well, so the
dictionary holds key `"A"` and has no entry for the claimed key `":A"`
(the first cell with only its trailing colon removed). -/
theorem C6_counterexample :
    specKeyTrailingColon ":A:" = ":A"
    ∧ formatInfo [[":A:", "v"]] ":A" = none
    ∧ formatInfo [[":A:", "v"]] "A" = some (NeaVal.one "v") :=
  ⟨by decide, by decide, by decide⟩

/-- C6 (amended): the metadata dictionary maps `"Reader"` to
`"NeaReaderGSF"`; every other key `k` maps to the value (non-empty
remaining cells, scalar when a singleton) of the LAST table row whose
first cell stripped of leading and trailing colons equals `k`; and a key
is present only if some row yields it. -/
theorem C6_amended (rows : List (List String)) (k : String) (v : NeaVal)
    (hk : k ≠ "Reader") :
    formatInfo rows "Reader" = some (NeaVal.one "NeaReaderGSF")
    ∧ formatInfo rows k
        = ((rows.filter (fun row => gsfKey row == k)).getLast?).map gsfVal
    ∧ (formatInfo rows k = some v
        → rows.any (fun row => gsfKey row == k) = true) := by
  have hr : formatInfo rows "Reader" = some (NeaVal.one "NeaReaderGSF") := by
    unfold formatInfo dictSet
    simp
  have hl : formatInfo rows k
      = ((rows.filter (fun row => gsfKey row == k)).getLast?).map gsfVal := by
    have hskip : formatInfo rows k
        = (rows.foldl (fun m row => dictSet m (gsfKey row) (gsfVal row))
          (fun _ => none)) k := by
      unfold formatInfo dictSet
      simp [hk]
    rw [hskip, gsfFold_lookup]
    cases hq : (rows.filter (fun row => gsfKey row == k)).getLast? with
    | none => rfl
    | some row => rfl
  refine ⟨hr, hl, ?_⟩
  intro hsome
  rw [hl] at hsome
  cases hq : (rows.filter (fun row => gsfKey row == k)).getLast? with
  | none => rw [hq] at hsome; simp at hsome
  | some row =>
    have hmem := List.mem_of_mem_getLast? hq
    rw [List.mem_filter] at hmem
    exact List.any_eq_true.mpr ⟨row, hmem.1, hmem.2⟩

/-- C6 (witness): the amended statement instantiated on the one-row table
`[[":A:", "v"]]` at key `"A"`. -/
theorem C6_amended_witness :
    formatInfo [[":A:", "v"]] "Reader" = some (NeaVal.one "NeaReaderGSF")
    ∧ formatInfo [[":A:", "v"]] "A"
        = (([[":A:", "v"]].filter (fun row => gsfKey row == "A")).getLast?).map gsfVal
    ∧ (formatInfo [[":A:", "v"]] "A" = some (NeaVal.one "v")
        → [[":A:", "v"]].any (fun row => gsfKey row == "A") = true) :=
  C6_amended [[":A:", "v"]] "A" (NeaVal.one "v") (by decide)

/-- C7: `_format_file` emits exactly `2 × px_x × px_y × averaging` rows,
one amplitude row then one phase row per `(x, y, run)` triple (interleaved
amplitude-then-phase), with row metadata `(column = x, row = y, run,
channel label)`, and the data rows at those positions are the matching
amplitude/phase raster slices. -/
theorem C7_gsf_rows (gsfA gsfP : List (List ℚ)) (chA chP : String)
    (avg px py pz : ℕ) (y x run : ℕ)
    (hy : y < py) (hx : x < px) (hr : run < avg) :
    (gsfData gsfA gsfP avg px py pz).length = 2 * px * py * avg
    ∧ (gsfMetas chA chP avg px py).length = 2 * px * py * avg
    ∧ (gsfMetas chA chP avg px py)[2 * ((y * px + x) * avg + run)]?
        = some (x, y, run, chA)
    ∧ (gsfMetas chA chP avg px py)[2 * ((y * px + x) * avg + run) + 1]?
        = some (x, y, run, chP)
    ∧ (gsfData gsfA gsfP avg px py pz)[2 * ((y * px + x) * avg + run)]?
        = some (sliceTake (gsfA.getD y []) ((x * avg + run) * pz) pz)
    ∧ (gsfData gsfA gsfP avg px py pz)[2 * ((y * px + x) * avg + run) + 1]?
        = some (sliceTake (gsfP.getD y []) ((x * avg + run) * pz) pz) := by
  have hgD : ∀ y' x' r', ([sliceTake (gsfA.getD y' []) ((x' * avg + r') * pz) pz,
      sliceTake (gsfP.getD y' []) ((x' * avg + r') * pz) pz] : List (List ℚ)).length = 2 :=
    fun _ _ _ => rfl
  have hgM : ∀ y' x' r', ([(x', y', r', chA), (x', y', r', chP)] :
      List (ℕ × ℕ × ℕ × String)).length = 2 := fun _ _ _ => rfl
  refine ⟨?_, ?_, ?_, ?_, ?_, ?_⟩
  · exact flatMap3_length _ py px avg hgD
  · exact flatMap3_length _ py px avg hgM
  · have h0 := flatMap3_getElem _ py px avg hgM y x run 0 hy hx hr (by omega)
    unfold gsfMetas
    simpa using h0
  · have h1 := flatMap3_getElem _ py px avg hgM y x run 1 hy hx hr (by omega)
    unfold gsfMetas
    simpa using h1
  · have h0 := flatMap3_getElem _ py px avg hgD y x run 0 hy hx hr (by omega)
    unfold gsfData
    simpa using h0
  · have h1 := flatMap3_getElem _ py px avg hgD y x run 1 hy hx hr (by omega)
    unfold gsfData
    simpa using h1

/-- C7 (witness): the row-structure statement instantiated on a concrete
single-pixel, single-run raster pair. -/
theorem C7_witness :
    (gsfData [[5]] [[6]] 1 1 1 1).length = 2 * 1 * 1 * 1
    ∧ (gsfMetas "O2A raw" "O2P raw" 1 1 1).length = 2 * 1 * 1 * 1
    ∧ (gsfMetas "O2A raw" "O2P raw" 1 1 1)[2 * ((0 * 1 + 0) * 1 + 0)]?
        = some (0, 0, 0, "O2A raw")
    ∧ (gsfMetas "O2A raw" "O2P raw" 1 1 1)[2 * ((0 * 1 + 0) * 1 + 0) + 1]?
        = some (0, 0, 0, "O2P raw")
    ∧ (gsfData [[5]] [[6]] 1 1 1 1)[2 * ((0 * 1 + 0) * 1 + 0)]?
        = some (sliceTake (([[5]] : List (List ℚ)).getD 0 []) ((0 * 1 + 0) * 1) 1)
    ∧ (gsfData [[5]] [[6]] 1 1 1 1)[2 * ((0 * 1 + 0) * 1 + 0) + 1]?
        = some (sliceTake (([[6]] : List (List ℚ)).getD 0 []) ((0 * 1 + 0) * 1) 1) :=
  C7_gsf_rows [[5]] [[6]] "O2A raw" "O2P raw" 1 1 1 1 0 0 0
    (by decide) (by decide) (by decide)

theorem slice_bound {x px run avg pz : ℕ} (hx : x < px) (hr : run < avg) :
    (x * avg + run) * pz + pz ≤ px * pz * avg := by
  have h1 : x * avg + run + 1 ≤ px * avg := by
    calc x * avg + run + 1 ≤ x * avg + avg := by omega
      _ = (x + 1) * avg := by ring
      _ ≤ px * avg := Nat.mul_le_mul_right _ hx
  calc (x * avg + run) * pz + pz = (x * avg + run + 1) * pz := by ring
    _ ≤ (px * avg) * pz := Nat.mul_le_mul_right _ h1
    _ = px * pz * avg := by ring

theorem mc_step_bound {row rows col cols run runs : ℕ}
    (h1 : row < rows) (h2 : col < cols) (h3 : run < runs) :
    row * cols * runs + col * runs + run + 1 ≤ rows * cols * runs := by
  have hcol : (col + 1) * runs ≤ cols * runs := Nat.mul_le_mul_right _ h2
  have hrow : (row + 1) * (cols * runs) ≤ rows * (cols * runs) :=
    Nat.mul_le_mul_right _ h1
  calc row * cols * runs + col * runs + run + 1
      ≤ row * cols * runs + col * runs + runs := by omega
    _ = row * cols * runs + (col + 1) * runs := by ring
    _ ≤ row * cols * runs + cols * runs := by omega
    _ = (row + 1) * (cols * runs) := by ring
    _ ≤ rows * (cols * runs) := hrow
    _ = rows * cols * runs := by ring

theorem getD_mem {l : List (List ℚ)} {y : ℕ} (h : y < l.length) :
    l.getD y [] ∈ l := by
  have heq : l.getD y [] = l[y] := by
    simp [List.getD_eq_getElem?_getD, List.getElem?_eq_getElem h]
  rw [heq]
  exact List.getElem_mem h

theorem length_sliceTake (l : List ℚ) (i n : ℕ) (h : i + n ≤ l.length) :
    (sliceTake l i n).length = n := by
  unfold sliceTake
  simp only [List.length_take, List.length_drop]
  omega

/-- C9: for all four reader variants, every row of the returned data
matrix has length equal to the length of the returned shared axis
(`data_matrix.shape == (rows, len(shared_axis))`), under the
well-formedness each variant needs to parse successfully. -/
theorem C9_shapes
    (recs : List NeaRecord) (X : List ℚ)
    (fileV2 : List (List ℚ)) (chCount : ℕ)
    (hlenV2 : fileV2.length
      = v2MaxRow fileV2 * v2MaxCol fileV2 * v2MaxOmega fileV2)
    (hRC : 1 ≤ v2MaxRow fileV2 * v2MaxCol fileV2)
    (gsfA gsfP : List (List ℚ)) (avg px py pz : ℕ)
    (hyA : py ≤ gsfA.length) (hyP : py ≤ gsfP.length)
    (hA : ∀ row ∈ gsfA, row.length = px * pz * avg)
    (hP : ∀ row ∈ gsfP, row.length = px * pz * avg)
    (input : List (List ℚ)) (chanCols : List ℕ) (rows cols runs depth : ℕ)
    (hmc : input.length = rows * cols * runs * depth) :
    ((v1DataRows recs X).all (fun row => row.length == X.length) = true)
    ∧ ((v2Data fileV2 chCount).all
        (fun row => row.length == (v2Axis fileV2).length) = true)
    ∧ ((gsfData gsfA gsfP avg px py pz).all
        (fun row => row.length == (gsfAxis pz).length) = true)
    ∧ ((mcOutData input chanCols rows cols runs depth).all
        (fun row => row.length == (mcAxis depth).length) = true) := by
  have homega : v2MaxOmega fileV2 ≤ fileV2.length := by
    rw [hlenV2]
    exact Nat.le_mul_of_pos_left _ hRC
  have haxv2 : (v2Axis fileV2).length = v2MaxOmega fileV2 := by
    unfold v2Axis
    simp only [List.length_map, List.length_take]
    omega
  refine ⟨?_, ?_, ?_, ?_⟩
  · rw [List.all_eq_true]
    intro row hrow
    unfold v1DataRows at hrow
    obtain ⟨p, _, hrow'⟩ := List.mem_flatMap.mp hrow
    unfold v1PixelDataRows at hrow'
    rcases List.mem_append.mp hrow' with h' | h' <;>
      · obtain ⟨h, _, rfl⟩ := List.mem_map.mp h'
        simp
  · rw [List.all_eq_true]
    intro row hrow
    unfold v2Data at hrow
    rcases mem_setAll _ _ _ hrow with hinit | ⟨u, hu, rfl⟩
    · have hrepl := List.eq_of_mem_replicate hinit
      subst hrepl
      simp [haxv2]
    · unfold v2Updates at hu
      obtain ⟨j, hj, hu'⟩ := List.mem_flatMap.mp hu
      obtain ⟨k, _, rfl⟩ := List.mem_map.mp hu'
      have hjlt : j < v2MaxRow fileV2 * v2MaxCol fileV2 := List.mem_range.mp hj
      have hbound : j * v2MaxOmega fileV2 + v2MaxOmega fileV2
          ≤ fileV2.length := by
        rw [hlenV2]
        calc j * v2MaxOmega fileV2 + v2MaxOmega fileV2
            = (j + 1) * v2MaxOmega fileV2 := by ring
          _ ≤ (v2MaxRow fileV2 * v2MaxCol fileV2) * v2MaxOmega fileV2 :=
              Nat.mul_le_mul_right _ hjlt
          _ = v2MaxRow fileV2 * v2MaxCol fileV2 * v2MaxOmega fileV2 := by ring
      unfold v2BlockCol v2Block
      simp only [haxv2, List.length_map, List.length_take, List.length_drop,
        beq_iff_eq]
      omega
  · rw [List.all_eq_true]
    intro row hrow
    unfold gsfData at hrow
    obtain ⟨y, hy, h1⟩ := List.mem_flatMap.mp hrow
    obtain ⟨x, hx, h2⟩ := List.mem_flatMap.mp h1
    obtain ⟨r, hr, h3⟩ := List.mem_flatMap.mp h2
    have hylt := List.mem_range.mp hy
    have hxlt := List.mem_range.mp hx
    have hrlt := List.mem_range.mp hr
    have haxlen : (gsfAxis pz).length = pz := by
      unfold gsfAxis
      simp
    have hlenA : (gsfA.getD y []).length = px * pz * avg :=
      hA _ (getD_mem (lt_of_lt_of_le hylt hyA))
    have hlenP : (gsfP.getD y []).length = px * pz * avg :=
      hP _ (getD_mem (lt_of_lt_of_le hylt hyP))
    have hsliceA :
        (sliceTake (gsfA.getD y []) ((x * avg + r) * pz) pz).length = pz :=
      length_sliceTake _ _ _ (by rw [hlenA]; exact slice_bound hxlt hrlt)
    have hsliceP :
        (sliceTake (gsfP.getD y []) ((x * avg + r) * pz) pz).length = pz :=
      length_sliceTake _ _ _ (by rw [hlenP]; exact slice_bound hxlt hrlt)
    rcases List.mem_cons.mp h3 with rfl | h4
    · simp only [haxlen, beq_iff_eq]
      exact hsliceA
    · rcases List.mem_cons.mp h4 with rfl | h5
      · simp only [haxlen, beq_iff_eq]
        exact hsliceP
      · simp at h5
  · rw [List.all_eq_true]
    intro row hrow
    unfold mcOutData at hrow
    have haxlen : (mcAxis depth).length = depth := by
      unfold mcAxis
      simp
    rcases mem_setAll _ _ _ hrow with hinit | ⟨u, hu, rfl⟩
    · have hrepl := List.eq_of_mem_replicate hinit
      subst hrepl
      simp [haxlen]
    · unfold mcUpdates at hu
      obtain ⟨rw1, hrw1, h1⟩ := List.mem_flatMap.mp hu
      obtain ⟨cl, hcl, h2⟩ := List.mem_flatMap.mp h1
      obtain ⟨rn, hrn, h3⟩ := List.mem_flatMap.mp h2
      obtain ⟨ch, _, rfl⟩ := List.mem_map.mp h3
      have hb1 := List.mem_range.mp hrw1
      have hb2 := List.mem_range.mp hcl
      have hb3 := List.mem_range.mp hrn
      have hstep := mc_step_bound hb1 hb2 hb3
      have hbound : depth * (rw1 * cols * runs + cl * runs + rn) + depth
          ≤ input.length := by
        rw [hmc]
        calc depth * (rw1 * cols * runs + cl * runs + rn) + depth
            = depth * (rw1 * cols * runs + cl * runs + rn + 1) := by ring
          _ ≤ depth * (rows * cols * runs) := Nat.mul_le_mul_left _ hstep
          _ = rows * cols * runs * depth := by ring
      simp only [haxlen, List.length_map, List.length_take, List.length_drop,
        beq_iff_eq]
      omega

/-- C9 (witness): the shape statement instantiated on concrete inputs for
all four reader variants. -/
theorem C9_witness :
    ((v1DataRows recsOverlap [1, 2]).all
        (fun row => row.length == ([1, 2] : List ℚ).length) = true)
    ∧ ((v2Data fileV2Small 1).all
        (fun row => row.length == (v2Axis fileV2Small).length) = true)
    ∧ ((gsfData [[5]] [[6]] 1 1 1 1).all
        (fun row => row.length == (gsfAxis 1).length) = true)
    ∧ ((mcOutData [[1, 2, 3]] [0] 1 1 1 1).all
        (fun row => row.length == (mcAxis 1).length) = true) :=
  C9_shapes recsOverlap [1, 2] fileV2Small 1 (by decide) (by decide)
    [[5]] [[6]] 1 1 1 1 (by decide) (by decide) (by decide) (by decide)
    [[1, 2, 3]] [0] 1 1 1 1 (by decide)

end NeaSpec

